import Mathlib

/-!
# Heartbeating: presence registry, connection sessions and shutdown relay

A shallow embedding of `server.go` and `client.go`.

* Times are `Int` nanoseconds (Go's `time.Time` / `time.Duration` resolution).
* A Go `error` value is `Option GoError`, with `none` for `nil`.
* A goroutine is embedded as the list of effects it performs (its trace),
  driven by the list of outcomes that the blocking calls it makes return.
* The client's shared `interrupt` channel and the sessions selecting on it are
  embedded as a labelled step function on an explicit state.
-/

namespace Heartbeating

/-! ## Go values shared by server and client -/

/-- The non-nil `error` values that the code of `server.go` tells apart. -/
inductive GoError where
  /-- The sentinel `websocket.ErrCloseSent`. -/
  | errCloseSent
  /-- A `*websocket.CloseError` carrying the close code sent by the peer. -/
  | closeError (code : Nat) (text : String)
  /-- An error implementing `net.Error`, with what `Timeout()` and `Temporary()` report. -/
  | netError (msg : String) (timeout temporary : Bool)
  /-- Any other error value. -/
  | other (msg : String)
  deriving DecidableEq, Repr

/-- Close code `websocket.CloseNormalClosure`. -/
def CloseNormalClosure : Nat := 1000

/-- Close code `websocket.CloseGoingAway`. -/
def CloseGoingAway : Nat := 1001

/-- Close code `websocket.CloseAbnormalClosure`. -/
def CloseAbnormalClosure : Nat := 1006

/-- The library predicate `websocket.IsUnexpectedCloseError(err, expectedCodes...)`:
true exactly for a `*CloseError` whose code is not among `expectedCodes`. -/
def IsUnexpectedCloseError (err : GoError) (expectedCodes : List Nat) : Bool :=
  match err with
  | .closeError code _ => !expectedCodes.contains code
  | _ => false

/-- One second, `time.Second`, in nanoseconds. -/
def second : Int := 1000000000

/-- The constant `pingWait = 60 * time.Second` of `server.go`. -/
def pingWait : Int := 60 * second

/-- The constant `maxMessageSize = 512` of `server.go`. -/
def maxMessageSize : Nat := 512

/-! ## The presence registry: `users`, `entering`, `leaving`, `hub` -/

/-- A Go `map[string]bool`: a finite list of bindings, at most one per key. -/
abbrev UsersMap := List (String × Bool)

/-- The map built by `make(map[string]bool)`. -/
def UsersMap.empty : UsersMap := []

/-- The builtin `delete(m, k)`. -/
def UsersMap.delete (m : UsersMap) (k : String) : UsersMap :=
  m.filter (fun p => p.1 != k)

/-- The assignment `m[k] = v`. -/
def UsersMap.store (m : UsersMap) (k : String) (v : Bool) : UsersMap :=
  (k, v) :: m.delete k

/-- Whether `k` is a key of the map (the `ok` of `_, ok := m[k]`). -/
def UsersMap.hasKey (m : UsersMap) (k : String) : Bool :=
  m.any (fun p => p.1 == k)

/-- The keys of the map. -/
def UsersMap.keys (m : UsersMap) : List String :=
  m.map Prod.fst

/-- A value received by `hub` from one of its two channels. -/
inductive HubEvent where
  /-- The branch `case uid := <-entering`. -/
  | entering (uid : String)
  /-- The branch `case uid := <-leaving`. -/
  | leaving (uid : String)
  deriving DecidableEq, Repr

/-- The identifier an event carries. -/
def HubEvent.uid : HubEvent → String
  | .entering uid => uid
  | .leaving uid => uid

/-- The state owned by the `hub` goroutine: the `users` map and the lines it logged. -/
structure Hub where
  users : UsersMap
  log : List String
  deriving DecidableEq, Repr

/-- The state at server start: `users = make(map[string]bool)`, nothing logged. -/
def Hub.init : Hub := ⟨UsersMap.empty, []⟩

/-- One iteration of the `for { select { ... } }` loop of `hub`. -/
def hubStep (h : Hub) : HubEvent → Hub
  | .entering uid =>
      { users := h.users.store uid true, log := h.log ++ ["uid: " ++ uid ++ " entering"] }
  | .leaving uid =>
      { users := h.users.delete uid, log := h.log ++ ["uid: " ++ uid ++ " leaving"] }

/-- The loop of `hub` run over the events in the order it receives them. -/
def hub (h : Hub) (events : List HubEvent) : Hub :=
  events.foldl hubStep h

/-- The last event of the sequence that carries `uid`, if there is one. -/
def lastEventOf (uid : String) (events : List HubEvent) : Option HubEvent :=
  (events.filter (fun e => e.uid == uid)).getLast?

/-! ## The connection session: `User`, `handleConn`, `pingHandler` -/

/-- The struct `User`; `conn` identifies the `*websocket.Conn` the session owns. -/
structure User where
  uid : String
  conn : Nat
  deriving DecidableEq, Repr

/-- The effects of the server goroutines, in the order they are performed. -/
inductive Action where
  /-- The call `c.ShouldBindQuery(&params)`. -/
  | shouldBindQuery
  /-- The line `sugar.Errorf("miss params: %v", err)`. -/
  | logMissParams (err : String)
  /-- The assignment to `upgrader.CheckOrigin`. -/
  | setCheckOrigin
  /-- The call `upgrader.Upgrade(c.Writer, c.Request, nil)`. -/
  | upgrade
  /-- The line `sugar.Errorf("websocket.HandshakeError: %v", err)`. -/
  | logHandshakeError (err : String)
  /-- The statement `go user.handleConn()`. -/
  | goHandleConn (uid : String)
  /-- The send `entering <- u.uid`. -/
  | sendEntering (uid : String)
  /-- The send `leaving <- u.uid`. -/
  | sendLeaving (uid : String)
  /-- The call `u.conn.SetReadLimit`. -/
  | setReadLimit (limit : Nat)
  /-- The call `u.conn.SetReadDeadline`. -/
  | setReadDeadline (t : Int)
  /-- The call `u.conn.SetPingHandler`. -/
  | setPingHandler
  /-- The call `u.conn.WriteControl(websocket.PongMessage, message, deadline)`. -/
  | writePong (message : String) (deadline : Int)
  /-- A return of `u.conn.ReadMessage()` with the given `err`. -/
  | readMessage (err : Option GoError)
  /-- The line `sugar.Errorf("websocket.IsUnexpectedCloseError: %v", err)`. -/
  | logUnexpectedClose (err : GoError)
  /-- The call `u.conn.Close()`. -/
  | connClose
  deriving DecidableEq, Repr

/-- The closure `h` returned by `pingHandler`, called with `message` when a ping
arrives. `now` and `now2` are what its two calls of `time.Now()` return and
`sendErr` is what `WriteControl` returns. The result is the effects performed
and the error returned. -/
def pingHandler (_u : User) (message : String) (now now2 : Int) (sendErr : Option GoError) :
    List Action × Option GoError :=
  let effects := [Action.setReadDeadline (now + pingWait), Action.writePong message (now2 + second)]
  if sendErr = some GoError.errCloseSent then
    (effects, none)
  else
    match sendErr with
    | some (GoError.netError _ _ true) => (effects, none)
    | _ => (effects, sendErr)

/-- What the connection delivers to the blocked `ReadMessage` call. The library
hands every ping frame to the handler installed with `SetPingHandler` from
inside `ReadMessage`, and a non-nil result of the handler is what `ReadMessage`
returns. -/
inductive Incoming where
  /-- A data frame: `ReadMessage` returns it with a nil error. -/
  | message
  /-- A ping frame, with the clock readings and send outcome the handler sees. -/
  | ping (message : String) (now now2 : Int) (sendErr : Option GoError)
  /-- The read itself fails: peer close, deadline expiry, transport failure. -/
  | fail (err : GoError)
  deriving DecidableEq, Repr

/-- The expected close codes that `handleConn` passes to `IsUnexpectedCloseError`. -/
def expectedCloseCodes : List Nat := [CloseGoingAway, CloseAbnormalClosure]

/-- The branch `if err != nil { ...; break }` of the read loop. -/
def readError (err : GoError) : List Action :=
  Action.readMessage (some err) ::
    (if IsUnexpectedCloseError err expectedCloseCodes then [Action.logUnexpectedClose err] else [])

/-- The loop `for { _, _, err := u.conn.ReadMessage(); ... }` of `handleConn`.
The flag tells whether the loop reached `break`; it is false when the input is
used up and the session is still blocked in `ReadMessage`. -/
def readLoop (u : User) : List Incoming → List Action × Bool
  | [] => ([], false)
  | Incoming.message :: rest =>
      (Action.readMessage none :: (readLoop u rest).1, (readLoop u rest).2)
  | Incoming.ping message now now2 sendErr :: rest =>
      match (pingHandler u message now now2 sendErr).2 with
      | none =>
          ((pingHandler u message now now2 sendErr).1 ++ (readLoop u rest).1, (readLoop u rest).2)
      | some err => ((pingHandler u message now now2 sendErr).1 ++ readError err, true)
  | Incoming.fail err :: _ => (readError err, true)

/-- The statements of `handleConn` before the read loop; `now` is `time.Now()`. -/
def handleConnSetup (u : User) (now : Int) : List Action :=
  [Action.sendEntering u.uid, Action.setReadLimit maxMessageSize,
    Action.setReadDeadline (now + pingWait), Action.setPingHandler]

/-- The deferred function of `handleConn`, run when it returns. -/
def handleConnDeferred (u : User) : List Action :=
  [Action.connClose, Action.sendLeaving u.uid]

/-- The method `handleConn`: its effects, and whether it has returned. -/
def handleConn (u : User) (now : Int) (incoming : List Incoming) : List Action × Bool :=
  if (readLoop u incoming).2 then
    (handleConnSetup u now ++ (readLoop u incoming).1 ++ handleConnDeferred u, true)
  else
    (handleConnSetup u now ++ (readLoop u incoming).1, false)

/-- Whether this input makes `ReadMessage` return a non-nil error. -/
def Incoming.isReadError (u : User) : Incoming → Bool
  | Incoming.message => false
  | Incoming.ping msg now now2 sendErr => (pingHandler u msg now now2 sendErr).2.isSome
  | Incoming.fail _ => true

/-- The error with which `ReadMessage` first returns non-nil, ending the read
loop; `none` when the input holds no read error. -/
def endingError (u : User) : List Incoming → Option GoError
  | [] => none
  | Incoming.message :: rest => endingError u rest
  | Incoming.ping message now now2 sendErr :: rest =>
      match (pingHandler u message now now2 sendErr).2 with
      | none => endingError u rest
      | some err => some err
  | Incoming.fail err :: _ => some err

/-- The time of the last refresh of the session: `now` when `handleConn` starts,
then the time at which the handler last ran for a ping. -/
def lastActivity (u : User) (now : Int) : List Incoming → Int
  | [] => now
  | Incoming.message :: rest => lastActivity u now rest
  | Incoming.ping message t t2 sendErr :: rest =>
      match (pingHandler u message t t2 sendErr).2 with
      | none => lastActivity u t rest
      | some _ => t
  | Incoming.fail _ :: _ => now

/-- The values a trace puts on the `entering` and `leaving` channels, in order. -/
def registryEvents (trace : List Action) : List HubEvent :=
  trace.filterMap fun
    | Action.sendEntering uid => some (HubEvent.entering uid)
    | Action.sendLeaving uid => some (HubEvent.leaving uid)
    | _ => none

/-- The read deadline in force after a trace: the argument of its last `SetReadDeadline`. -/
def readDeadline (trace : List Action) : Option Int :=
  (trace.filterMap fun
    | Action.setReadDeadline t => some t
    | _ => none).getLast?

/-- Whether a trace logged a read error as an unexpected close. -/
def loggedAnomaly (trace : List Action) : Bool :=
  trace.any fun
    | Action.logUnexpectedClose _ => true
    | _ => false

/-- Modelled from the spec: the liveness timer policy `isAlive(lastActivity, now, window)`
of section 4.1, "true iff `now - lastActivity <= window`"; the source has no
such function, the deadline it arms is enforced by the transport. -/
def isAlive (lastActivity now window : Int) : Bool :=
  decide (now - lastActivity ≤ window)

/-! ## The connection acceptor: `Params`, `serveWs` -/

/-- The struct `Params`. -/
structure Params where
  Uid : String
  Ts : Int
  deriving DecidableEq, Repr

/-- The errors `upgrader.Upgrade` returns, as `serveWs` tells them apart. -/
inductive UpgradeError where
  /-- A `websocket.HandshakeError`. -/
  | handshake (msg : String)
  /-- Any other error. -/
  | other (msg : String)
  deriving DecidableEq, Repr

/-- An upgrade request, as far as `serveWs` looks at it: what binding the query
into `Params` yields (an error when `uid` or `ts` is missing or malformed, both
being tagged `binding:"required"`), and what the upgrade yields when attempted. -/
structure Request where
  bind : Except String Params
  upgrade : Except UpgradeError Nat

/-- The handler `serveWs`: its effects, and the session it starts, if any. -/
def serveWs (c : Request) : List Action × Option User :=
  match c.bind with
  | Except.error err => ([Action.shouldBindQuery, Action.logMissParams err], none)
  | Except.ok params =>
      match c.upgrade with
      | Except.error (UpgradeError.handshake _) =>
          ([Action.shouldBindQuery, Action.setCheckOrigin, Action.upgrade], none)
      | Except.error (UpgradeError.other msg) =>
          ([Action.shouldBindQuery, Action.setCheckOrigin, Action.upgrade,
            Action.logHandshakeError msg], none)
      | Except.ok conn =>
          ([Action.shouldBindQuery, Action.setCheckOrigin, Action.upgrade,
            Action.goHandleConn params.Uid], some ⟨params.Uid, conn⟩)

/-- Everything a request causes: the effects of `serveWs` followed by those of
the `handleConn` goroutine it starts, if it starts one. -/
def serve (c : Request) (now : Int) (incoming : List Incoming) : List Action :=
  (serveWs c).1 ++
    match (serveWs c).2 with
    | none => []
    | some u => (handleConn u now incoming).1

/-! ## Sessions as seen by the registry -/

/-- An event on the registry's channels together with the session that sent it. -/
structure SessionEvent where
  sid : Nat
  ev : HubEvent
  deriving DecidableEq, Repr

/-- The open sessions (session, uid) once one more event has been sent: a
session opens with its `entering` send and ends with its `leaving` send. -/
def openAfter (opened : List (Nat × String)) : SessionEvent → List (Nat × String)
  | ⟨sid, HubEvent.entering uid⟩ => (sid, uid) :: opened
  | ⟨sid, HubEvent.leaving uid⟩ => opened.filter (fun p => p != (sid, uid))

/-- The sessions that have joined and not yet left after a sequence of events. -/
def openSessions (events : List SessionEvent) : List (Nat × String) :=
  events.foldl openAfter []

/-- Whether an event keeps lifetimes disjoint per uid: a join comes from a
session that is not open and carries a uid no open session has, a leave comes
from an open session and carries that session's uid. -/
def admissible (opened : List (Nat × String)) : SessionEvent → Bool
  | ⟨sid, HubEvent.entering uid⟩ => opened.all (fun p => p.1 != sid && p.2 != uid)
  | ⟨sid, HubEvent.leaving uid⟩ => opened.contains (sid, uid)

/-- No two overlapping sessions share a uid, all along the sequence. -/
def noOverlapFrom (opened : List (Nat × String)) : List SessionEvent → Bool
  | [] => true
  | e :: rest => admissible opened e && noOverlapFrom (openAfter opened e) rest

/-- No two overlapping sessions share a uid, starting with no session open. -/
def noOverlap (events : List SessionEvent) : Bool :=
  noOverlapFrom [] events

/-! ## The load-test client: `newUser` and the `interrupt` channel -/

/-- An `os.Signal`, by its number (2 for SIGINT, 15 for SIGTERM). -/
abbrev Signal := Nat

/-- The effects of one `newUser` goroutine, in the order they are performed. -/
inductive ClientAction where
  /-- The call `jwt.CreateToken`. -/
  | createToken
  /-- The line `sugar.Fatalf("... jwt.CreateToken.err ...")`, which ends the process. -/
  | fatalCreateToken (err : GoError)
  /-- The call `websocket.DefaultDialer.Dial`. -/
  | dial
  /-- The line `sugar.Fatalf("... dial.err ...")`, which ends the process. -/
  | fatalDial (err : GoError)
  /-- The call `time.NewTicker(time.Second)`. -/
  | newTicker
  /-- The call `c.WriteMessage(websocket.PingMessage, t.String())`. -/
  | writePing (t : Int)
  /-- The line `sugar.Infof("... write.err ...")`. -/
  | logWriteErr (err : GoError)
  /-- The receive `next := <-interrupt`. -/
  | recvInterrupt (next : Signal)
  /-- The line `sugar.Infof("[client:%s] interrupt", uid)`. -/
  | logInterrupt
  /-- The send `interrupt <- next`. -/
  | sendInterrupt (next : Signal)
  /-- The call `c.WriteMessage(websocket.CloseMessage, FormatCloseMessage(code, ""))`. -/
  | writeClose (code : Nat)
  /-- The line `sugar.Infof("... write close: ...")`. -/
  | logWriteClose (err : GoError)
  /-- The deferred `ticker.Stop()`. -/
  | tickerStop
  /-- The deferred `c.Close()`. -/
  | connClose
  deriving DecidableEq, Repr

/-- The case the `select` of `newUser` takes, with what follows in that case. -/
inductive Selected where
  /-- The case `t := <-ticker.C`; the ping write returns `writeErr`. -/
  | tick (t : Int) (writeErr : Option GoError)
  /-- The case `next := <-interrupt`, the send `interrupt <- next` completing;
  the close-frame write returns `writeErr`. -/
  | interrupt (next : Signal) (writeErr : Option GoError)
  /-- The case `next := <-interrupt`, the send `interrupt <- next` not
  completing: the one slot of the channel was filled again after the receive
  (a further signal was posted) and nothing has emptied it. -/
  | interruptBlocked (next : Signal)
  deriving DecidableEq, Repr

/-- Where a `newUser` goroutine stands. -/
inductive Status where
  /-- Blocked in the `select` of the loop. -/
  | selecting
  /-- Blocked in the send `interrupt <- next`. -/
  | sending
  /-- Returned from `newUser`. -/
  | returned
  /-- The process was ended by `sugar.Fatalf`. -/
  | fatal
  deriving DecidableEq, Repr

/-- The loop `for { select { ... } }` of `newUser`: its effects, and where it
stands afterwards: `returned` when a `return` was reached, `sending` when it is
blocked in `interrupt <- next`, `selecting` when the input is used up and it is
blocked in `select` again. -/
def newUserLoop : List Selected → List ClientAction × Status
  | [] => ([], Status.selecting)
  | Selected.tick t writeErr :: rest =>
      match writeErr with
      | some err =>
          ([ClientAction.writePing t, ClientAction.logWriteErr err], Status.returned)
      | none => (ClientAction.writePing t :: (newUserLoop rest).1, (newUserLoop rest).2)
  | Selected.interrupt next writeErr :: rest =>
      match writeErr with
      | some err =>
          ([ClientAction.recvInterrupt next, ClientAction.logInterrupt,
            ClientAction.sendInterrupt next, ClientAction.writeClose CloseNormalClosure,
            ClientAction.logWriteClose err], Status.returned)
      | none =>
          (ClientAction.recvInterrupt next :: ClientAction.logInterrupt ::
            ClientAction.sendInterrupt next :: ClientAction.writeClose CloseNormalClosure ::
            (newUserLoop rest).1, (newUserLoop rest).2)
  | Selected.interruptBlocked next :: _ =>
      ([ClientAction.recvInterrupt next, ClientAction.logInterrupt], Status.sending)

/-- The function `newUser`: `tokenErr` and `dialErr` are what `jwt.CreateToken`
and `Dial` return, `selected` drives the loop. The deferred `ticker.Stop()` and
`c.Close()` run, in that order, when the function returns. -/
def newUser (_uid : String) (tokenErr dialErr : Option GoError) (selected : List Selected) :
    List ClientAction × Status :=
  match tokenErr with
  | some err => ([ClientAction.createToken, ClientAction.fatalCreateToken err], Status.fatal)
  | none =>
      match dialErr with
      | some err =>
          ([ClientAction.createToken, ClientAction.dial, ClientAction.fatalDial err], Status.fatal)
      | none =>
          if (newUserLoop selected).2 = Status.returned then
            ([ClientAction.createToken, ClientAction.dial, ClientAction.newTicker] ++
              (newUserLoop selected).1 ++ [ClientAction.tickerStop, ClientAction.connClose],
              Status.returned)
          else
            ([ClientAction.createToken, ClientAction.dial, ClientAction.newTicker] ++
              (newUserLoop selected).1, (newUserLoop selected).2)

/-- Whether an effect is a log line. -/
def ClientAction.isLog : ClientAction → Bool
  | ClientAction.logWriteErr _ => true
  | ClientAction.logInterrupt => true
  | ClientAction.logWriteClose _ => true
  | _ => false

/-- The channel and connection operations of a trace: the trace without its log lines. -/
def operations (trace : List ClientAction) : List ClientAction :=
  trace.filter (fun a => !a.isLog)

/-- The values a trace received from `interrupt`, in order. -/
def receivedSignals (trace : List ClientAction) : List Signal :=
  trace.filterMap fun
    | ClientAction.recvInterrupt next => some next
    | _ => none

/-- The values a trace sent to `interrupt`, in order. -/
def repostedSignals (trace : List ClientAction) : List Signal :=
  trace.filterMap fun
    | ClientAction.sendInterrupt next => some next
    | _ => none

/-- The capacity of the channel made by `make(chan os.Signal, 1)` in `main`. -/
def interruptCap : Nat := 1

/-- Where one `newUser` goroutine stands in its loop. -/
inductive Pc where
  /-- Waiting in `select` on `ticker.C` and `interrupt`. -/
  | atSelect
  /-- Holding `next`, about to execute `interrupt <- next`. -/
  | atRepost (next : Signal)
  /-- About to write the close frame. -/
  | atWriteClose
  /-- Returned. -/
  | returned
  deriving DecidableEq, Repr

/-- One `newUser` goroutine: where it stands, and the values it has received
from `interrupt` so far. -/
structure Session where
  pc : Pc
  received : List Signal
  deriving DecidableEq, Repr

/-- The shared `interrupt` channel (its buffer, oldest value first) and the
goroutines started by `main`. -/
structure Relay where
  interrupt : List Signal
  sessions : List Session
  deriving DecidableEq, Repr

/-- The state once `main` has started `n` goroutines and each waits in `select`. -/
def Relay.init (n : Nat) : Relay :=
  ⟨[], List.replicate n ⟨Pc.atSelect, []⟩⟩

/-- What can happen next. -/
inductive Step where
  /-- The `os/signal` package posts a signal; it does not block, a signal that
  finds the buffer full is dropped. -/
  | notify (sig : Signal)
  /-- Goroutine `i` takes the case `next := <-interrupt`. -/
  | receive (i : Nat)
  /-- Goroutine `i` takes the case `t := <-ticker.C`; its ping write returns `writeErr`. -/
  | tick (i : Nat) (writeErr : Option GoError)
  /-- Goroutine `i` executes `interrupt <- next`. -/
  | repost (i : Nat)
  /-- Goroutine `i` writes the close frame; the write returns `writeErr`. -/
  | writeClose (i : Nat) (writeErr : Option GoError)
  deriving DecidableEq, Repr

/-- One step of the system; `none` when the step is not enabled. -/
def Relay.step (r : Relay) : Step → Option Relay
  | Step.notify sig =>
      if r.interrupt.length < interruptCap then
        some { r with interrupt := r.interrupt ++ [sig] }
      else
        some r
  | Step.receive i =>
      match r.sessions[i]?, r.interrupt with
      | some ⟨Pc.atSelect, received⟩, next :: buffer =>
          some ⟨buffer, r.sessions.set i ⟨Pc.atRepost next, received ++ [next]⟩⟩
      | _, _ => none
  | Step.tick i writeErr =>
      match r.sessions[i]? with
      | some ⟨Pc.atSelect, received⟩ =>
          match writeErr with
          | some _ => some { r with sessions := r.sessions.set i ⟨Pc.returned, received⟩ }
          | none => some r
      | _ => none
  | Step.repost i =>
      match r.sessions[i]? with
      | some ⟨Pc.atRepost next, received⟩ =>
          if r.interrupt.length < interruptCap then
            some ⟨r.interrupt ++ [next], r.sessions.set i ⟨Pc.atWriteClose, received⟩⟩
          else
            none
      | _ => none
  | Step.writeClose i writeErr =>
      match r.sessions[i]? with
      | some ⟨Pc.atWriteClose, received⟩ =>
          match writeErr with
          | some _ => some { r with sessions := r.sessions.set i ⟨Pc.returned, received⟩ }
          | none => some { r with sessions := r.sessions.set i ⟨Pc.atSelect, received⟩ }
      | _ => none

/-- A schedule run from a state; `none` when one of its steps is not enabled. -/
def Relay.run (r : Relay) : List Step → Option Relay
  | [] => some r
  | s :: rest => (r.step s).bind (fun r2 => r2.run rest)

/-- How many times goroutine `i` has received from `interrupt`. -/
def Relay.receipts (r : Relay) (i : Nat) : Nat :=
  match r.sessions[i]? with
  | some s => s.received.length
  | none => 0

/-! ## Lemmas on the registry -/

theorem UsersMap.hasKey_iff (m : UsersMap) (k : String) :
    m.hasKey k = true ↔ ∃ v, (k, v) ∈ m := by
  simp only [UsersMap.hasKey, List.any_eq_true, beq_iff_eq]
  constructor
  · rintro ⟨⟨k', v⟩, hm, hk⟩
    exact ⟨v, by simpa [← hk] using hm⟩
  · rintro ⟨v, hm⟩
    exact ⟨(k, v), hm, rfl⟩

theorem UsersMap.hasKey_delete (m : UsersMap) (k k' : String) :
    (m.delete k).hasKey k' = (k' != k && m.hasKey k') := by
  rw [Bool.eq_iff_iff]
  simp only [Bool.and_eq_true, bne_iff_ne, ne_eq, UsersMap.hasKey_iff, UsersMap.delete,
    List.mem_filter]
  constructor
  · rintro ⟨v, hm, hk⟩
    exact ⟨hk, v, hm⟩
  · rintro ⟨hk, v, hm⟩
    exact ⟨v, hm, hk⟩

theorem UsersMap.hasKey_store (m : UsersMap) (k k' : String) (v : Bool) :
    (m.store k v).hasKey k' = (k' == k || m.hasKey k') := by
  have h := UsersMap.hasKey_delete m k k'
  simp only [UsersMap.store, UsersMap.hasKey, List.any_cons] at h ⊢
  rw [h]
  by_cases hk : k' = k
  · simp [hk]
  · have h1 : (k' == k) = false := beq_eq_false_iff_ne.mpr hk
    have h2 : (k == k') = false := beq_eq_false_iff_ne.mpr (fun h => hk h.symm)
    have h3 : (k' != k) = true := bne_iff_ne.mpr hk
    rw [h1, h2, h3]
    simp

theorem hub_append (h : Hub) (es : List HubEvent) (e : HubEvent) :
    hub h (es ++ [e]) = hubStep (hub h es) e := by
  simp [hub, List.foldl_append]

theorem lastEventOf_append (uid : String) (es : List HubEvent) (e : HubEvent) :
    lastEventOf uid (es ++ [e]) = if e.uid = uid then some e else lastEventOf uid es := by
  by_cases h : e.uid = uid
  · simp [lastEventOf, List.filter_append, h]
  · simp [lastEventOf, List.filter_append, h]

/-! ## Claims on the registry -/

/-- C1. For every finite sequence of join/leave events that `hub` applies, in
the order received, to the initially empty `users` map: `uid` is a key of
`users` afterwards iff the sequence holds an event for `uid` and the last such
event is a join. -/
theorem hub_membership_iff_last_event_is_join (events : List HubEvent) (uid : String) :
    (hub Hub.init events).users.hasKey uid = true ↔
      lastEventOf uid events = some (HubEvent.entering uid) := by
  induction events using List.reverseRecOn with
  | nil => simp [hub, Hub.init, UsersMap.empty, UsersMap.hasKey, lastEventOf]
  | append_singleton es e ih =>
    rw [hub_append, lastEventOf_append]
    cases e with
    | entering u =>
      simp only [hubStep, HubEvent.uid, UsersMap.hasKey_store]
      by_cases hu : u = uid
      · subst hu; simp
      · have : ¬ uid = u := fun h => hu h.symm
        simp [hu, this, ih]
    | leaving u =>
      simp only [hubStep, HubEvent.uid, UsersMap.hasKey_delete]
      by_cases hu : u = uid
      · subst hu; simp
      · have : ¬ uid = u := fun h => hu h.symm
        simp [hu, this, ih]

/-! ## Lemmas on the connection session -/

theorem pingHandler_effects (u : User) (message : String) (now now2 : Int)
    (sendErr : Option GoError) :
    (pingHandler u message now now2 sendErr).1 =
      [Action.setReadDeadline (now + pingWait), Action.writePong message (now2 + second)] := by
  unfold pingHandler
  split
  · rfl
  · split <;> rfl

theorem readLoop_exits_iff (u : User) (incoming : List Incoming) :
    (readLoop u incoming).2 = true ↔ incoming.any (Incoming.isReadError u) = true := by
  induction incoming with
  | nil => simp [readLoop]
  | cons x rest ih =>
    cases x with
    | message => simp [readLoop, Incoming.isReadError, ih]
    | ping message now now2 sendErr =>
      simp only [readLoop, List.any_cons, Incoming.isReadError]
      cases h : (pingHandler u message now now2 sendErr).2 with
      | none => simp [ih]
      | some err => simp
    | fail err => simp [readLoop, Incoming.isReadError]

theorem readLoop_exits_iff_endingError (u : User) (incoming : List Incoming) :
    (readLoop u incoming).2 = true ↔ ∃ err, endingError u incoming = some err := by
  induction incoming with
  | nil => simp [readLoop, endingError]
  | cons x rest ih =>
    cases x with
    | message => simp [readLoop, endingError, ih]
    | ping message now now2 sendErr =>
      simp only [readLoop, endingError]
      cases h : (pingHandler u message now now2 sendErr).2 with
      | none => simp [ih]
      | some err => simp
    | fail err => simp [readLoop, endingError]

theorem registryEvents_append (a b : List Action) :
    registryEvents (a ++ b) = registryEvents a ++ registryEvents b := by
  simp [registryEvents]

theorem registryEvents_readError (err : GoError) : registryEvents (readError err) = [] := by
  unfold readError
  split <;> rfl

theorem connClose_not_mem_readError (err : GoError) : Action.connClose ∉ readError err := by
  unfold readError
  split <;> simp

theorem registryEvents_readLoop (u : User) (incoming : List Incoming) :
    registryEvents (readLoop u incoming).1 = [] := by
  induction incoming with
  | nil => rfl
  | cons x rest ih =>
    cases x with
    | message => simpa [readLoop, registryEvents] using ih
    | ping message now now2 sendErr =>
      simp only [readLoop]
      cases h : (pingHandler u message now now2 sendErr).2 with
      | none =>
        simp only [registryEvents_append, ih, pingHandler_effects]
        rfl
      | some err =>
        simp only [registryEvents_append, registryEvents_readError, pingHandler_effects]
        rfl
    | fail err => simpa [readLoop] using registryEvents_readError err

theorem connClose_not_mem_readLoop (u : User) (incoming : List Incoming) :
    Action.connClose ∉ (readLoop u incoming).1 := by
  induction incoming with
  | nil => simp [readLoop]
  | cons x rest ih =>
    cases x with
    | message => simpa [readLoop] using ih
    | ping message now now2 sendErr =>
      simp only [readLoop]
      cases h : (pingHandler u message now now2 sendErr).2 with
      | none => simpa [pingHandler_effects] using ih
      | some err => simpa [pingHandler_effects] using connClose_not_mem_readError err
    | fail err => simpa [readLoop] using connClose_not_mem_readError err

/-! ## Claims on the connection session -/

/-- C2. For every session started by `handleConn` and every finite sequence of
read outcomes in which a read error occurs (a failed read of any kind, or a
ping whose handler returns an error), in particular every sequence ending in
one: `handleConn` returns, the values it puts on the registry channels are
exactly one join and then one leave, both for its own uid, the join is its
first effect and the leave its last, and the connection is closed exactly
once, right before the leave. -/
theorem handleConn_one_join_then_one_leave (u : User) (now : Int) (incoming : List Incoming)
    (h : incoming.any (Incoming.isReadError u) = true) :
    (handleConn u now incoming).2 = true ∧
    registryEvents (handleConn u now incoming).1 =
      [HubEvent.entering u.uid, HubEvent.leaving u.uid] ∧
    (handleConn u now incoming).1.head? = some (Action.sendEntering u.uid) ∧
    (handleConn u now incoming).1.getLast? = some (Action.sendLeaving u.uid) ∧
    (handleConn u now incoming).1.count Action.connClose = 1 ∧
    ∃ body, (handleConn u now incoming).1 =
        Action.sendEntering u.uid :: body ++ [Action.connClose, Action.sendLeaving u.uid] ∧
      Action.connClose ∉ body ∧ registryEvents body = [] := by
  have hexit : (readLoop u incoming).2 = true := (readLoop_exits_iff u incoming).mpr h
  have hreg := registryEvents_readLoop u incoming
  have hclose := connClose_not_mem_readLoop u incoming
  have htrace : (handleConn u now incoming).1 =
      handleConnSetup u now ++ (readLoop u incoming).1 ++ handleConnDeferred u := by
    simp [handleConn, hexit]
  refine ⟨by simp [handleConn, hexit], ?_, ?_, ?_, ?_, ?_⟩
  · rw [htrace, registryEvents_append, registryEvents_append, hreg]
    rfl
  · rw [htrace]; rfl
  · rw [htrace]
    simp [handleConnDeferred]
  · rw [htrace, List.count_append, List.count_append, List.count_eq_zero_of_not_mem hclose]
    simp [handleConnSetup, handleConnDeferred]
  · refine ⟨[Action.setReadLimit maxMessageSize, Action.setReadDeadline (now + pingWait),
      Action.setPingHandler] ++ (readLoop u incoming).1, ?_, ?_, ?_⟩
    · rw [htrace]
      simp [handleConnSetup, handleConnDeferred]
    · simpa using hclose
    · rw [registryEvents_append, hreg]
      rfl

/-- C2, at a session that reads one message, answers one ping and then sees
the peer go away. -/
theorem handleConn_one_join_then_one_leave_witness :
    (handleConn ⟨"7", 1⟩ 0
        [Incoming.message, Incoming.ping "p" 5 6 none,
          Incoming.fail (GoError.closeError 1001 "")]).2 = true ∧
    registryEvents (handleConn ⟨"7", 1⟩ 0
        [Incoming.message, Incoming.ping "p" 5 6 none,
          Incoming.fail (GoError.closeError 1001 "")]).1 =
      [HubEvent.entering "7", HubEvent.leaving "7"] :=
  ⟨(handleConn_one_join_then_one_leave ⟨"7", 1⟩ 0
      [Incoming.message, Incoming.ping "p" 5 6 none,
        Incoming.fail (GoError.closeError 1001 "")] (by decide)).1,
    (handleConn_one_join_then_one_leave ⟨"7", 1⟩ 0
      [Incoming.message, Incoming.ping "p" 5 6 none,
        Incoming.fail (GoError.closeError 1001 "")] (by decide)).2.1⟩

/-! ## Lemmas on logging and on the read deadline -/

theorem loggedAnomaly_append (a b : List Action) :
    loggedAnomaly (a ++ b) = (loggedAnomaly a || loggedAnomaly b) := by
  simp [loggedAnomaly]

theorem loggedAnomaly_readError (err : GoError) :
    loggedAnomaly (readError err) = IsUnexpectedCloseError err expectedCloseCodes := by
  unfold readError
  cases h : IsUnexpectedCloseError err expectedCloseCodes <;> simp [loggedAnomaly]

theorem loggedAnomaly_readLoop (u : User) (incoming : List Incoming) (err : GoError)
    (h : endingError u incoming = some err) :
    loggedAnomaly (readLoop u incoming).1 = IsUnexpectedCloseError err expectedCloseCodes := by
  induction incoming with
  | nil => simp [endingError] at h
  | cons x rest ih =>
    cases x with
    | message =>
      simp only [endingError] at h
      simpa [readLoop, loggedAnomaly] using ih h
    | ping message now now2 sendErr =>
      simp only [endingError] at h
      simp only [readLoop]
      cases hp : (pingHandler u message now now2 sendErr).2 with
      | none =>
        rw [hp] at h
        simp only [loggedAnomaly_append, pingHandler_effects, ih h]
        simp [loggedAnomaly]
      | some e =>
        rw [hp] at h
        simp only [Option.some.injEq] at h
        subst h
        simp only [loggedAnomaly_append, pingHandler_effects, loggedAnomaly_readError]
        simp [loggedAnomaly]
    | fail e =>
      simp only [endingError, Option.some.injEq] at h
      subst h
      simpa [readLoop] using loggedAnomaly_readError e

theorem isUnexpectedCloseError_iff (err : GoError) :
    IsUnexpectedCloseError err expectedCloseCodes = true ↔
      ∃ code text, err = GoError.closeError code text ∧
        code ≠ CloseGoingAway ∧ code ≠ CloseAbnormalClosure := by
  cases err with
  | closeError code text =>
    simp [IsUnexpectedCloseError, expectedCloseCodes]
  | errCloseSent => simp [IsUnexpectedCloseError]
  | netError msg timeout temporary => simp [IsUnexpectedCloseError]
  | other msg => simp [IsUnexpectedCloseError]

theorem readDeadline_append (a b : List Action) :
    readDeadline (a ++ b) = (readDeadline b).or (readDeadline a) := by
  simp [readDeadline]

theorem readDeadline_readError (err : GoError) : readDeadline (readError err) = none := by
  unfold readError
  split <;> rfl

theorem readDeadline_readLoop (u : User) (incoming : List Incoming) (now : Int) :
    (readDeadline (readLoop u incoming).1).getD (now + pingWait) =
      lastActivity u now incoming + pingWait := by
  induction incoming generalizing now with
  | nil => rfl
  | cons x rest ih =>
    cases x with
    | message =>
      have h := ih now
      simp only [readLoop, lastActivity]
      rw [← h]
      rfl
    | ping message t t2 sendErr =>
      simp only [readLoop, lastActivity]
      cases hp : (pingHandler u message t t2 sendErr).2 with
      | none =>
        have h := ih t
        simp only [readDeadline_append, pingHandler_effects]
        rw [← h]
        cases readDeadline (readLoop u rest).1 <;> rfl
      | some e =>
        simp only [readDeadline_append, pingHandler_effects, readDeadline_readError]
        rfl
    | fail e =>
      simp only [readLoop, lastActivity, readDeadline_readError]
      rfl

/-! ## Claims on the ping handler, the deadline, the acceptor and the close log -/

/-- C3. For every outcome `sendErr` of the pong send: the handler returned by
`pingHandler` returns nil exactly when the send succeeded, or `sendErr` is
`ErrCloseSent`, or `sendErr` is a `net.Error` reporting `Temporary()`; in every
other case it returns `sendErr` itself. The read loop ends at a ping exactly
when its handler returns a non-nil error, which is then the error that ends the
session; otherwise the loop goes on with the input that follows. -/
theorem pingHandler_swallows_only_transient_errors (u : User) (message : String)
    (now now2 : Int) (sendErr : Option GoError) :
    ((pingHandler u message now now2 sendErr).2 = none ↔
      (sendErr = none ∨ sendErr = some GoError.errCloseSent ∨
        ∃ msg timeout, sendErr = some (GoError.netError msg timeout true))) ∧
    ((pingHandler u message now now2 sendErr).2 = none ∨
      (pingHandler u message now now2 sendErr).2 = sendErr) ∧
    (∀ rest, (readLoop u (Incoming.ping message now now2 sendErr :: rest)).2 =
      ((pingHandler u message now now2 sendErr).2.isSome || (readLoop u rest).2)) ∧
    (∀ rest, endingError u (Incoming.ping message now now2 sendErr :: rest) =
      ((pingHandler u message now now2 sendErr).2).or (endingError u rest)) := by
  refine ⟨?_, ?_, ?_, ?_⟩
  · cases sendErr with
    | none => simp [pingHandler]
    | some err =>
      cases err with
      | errCloseSent => simp [pingHandler]
      | closeError code text => simp [pingHandler]
      | netError msg timeout temporary => cases temporary <;> simp [pingHandler]
      | other msg => simp [pingHandler]
  · cases sendErr with
    | none => simp [pingHandler]
    | some err =>
      cases err with
      | errCloseSent => simp [pingHandler]
      | closeError code text => simp [pingHandler]
      | netError msg timeout temporary => cases temporary <;> simp [pingHandler]
      | other msg => simp [pingHandler]
  · intro rest
    simp only [readLoop]
    cases (pingHandler u message now now2 sendErr).2 <;> simp
  · intro rest
    simp only [endingError]
    cases (pingHandler u message now now2 sendErr).2 <;> simp

/-- C3, at a pong send that times out with a temporary `net.Error`: the handler
returns nil. -/
theorem pingHandler_swallows_only_transient_errors_witness :
    (pingHandler ⟨"7", 1⟩ "p" 5 6 (some (GoError.netError "i/o timeout" true true))).2 = none :=
  (pingHandler_swallows_only_transient_errors ⟨"7", 1⟩ "p" 5 6
    (some (GoError.netError "i/o timeout" true true))).1.mpr
    (Or.inr (Or.inr ⟨"i/o timeout", true, rfl⟩))

/-- C4. With `pingWait` = 60 seconds: the handler returned by `pingHandler`
sets the read deadline to `now + pingWait` as its first effect, before the pong
send and whatever that send returns; after any input the read deadline of a
session is the time of its last refresh (its start, or the last ping handled)
plus `pingWait`; and under `isAlive` with that window a session is not alive at
exactly the times later than last refresh plus window, so at no time before
the window has passed: refreshed at 0, it is alive at 59 s and not at 61 s. -/
theorem deadline_is_last_refresh_plus_pingWait :
    pingWait = 60 * 1000000000 ∧
    (∀ (u : User) (message : String) (now now2 : Int) (sendErr : Option GoError),
      (pingHandler u message now now2 sendErr).1 =
        [Action.setReadDeadline (now + pingWait), Action.writePong message (now2 + second)]) ∧
    (∀ (u : User) (now : Int),
      readDeadline (handleConnSetup u now) = some (now + pingWait)) ∧
    (∀ (u : User) (now : Int) (incoming : List Incoming),
      readDeadline (handleConn u now incoming).1 =
        some (lastActivity u now incoming + pingWait)) ∧
    (∀ last t : Int, isAlive last t pingWait = true ↔ t - last ≤ pingWait) ∧
    (∀ last t : Int, isAlive last t pingWait = false ↔ last + pingWait < t) ∧
    isAlive 0 (59 * second) pingWait = true ∧
    isAlive 0 (61 * second) pingWait = false := by
  refine ⟨by decide, pingHandler_effects, fun _ _ => rfl, ?_, ?_, ?_, by decide, by decide⟩
  · intro u now incoming
    have hloop := readDeadline_readLoop u incoming now
    have hsetup : readDeadline (handleConnSetup u now) = some (now + pingWait) := rfl
    have hdefer : readDeadline (handleConnDeferred u) = none := rfl
    unfold handleConn
    split
    · simp only [readDeadline_append, hsetup, hdefer, ← hloop]
      cases readDeadline (readLoop u incoming).1 <;> rfl
    · simp only [readDeadline_append, hsetup, ← hloop]
      cases readDeadline (readLoop u incoming).1 <;> rfl
  · intro last t
    simp [isAlive]
  · intro last t
    simp only [isAlive, decide_eq_false_iff_not, not_le]
    constructor <;> intro h <;> linarith

/-- C5. For every upgrade request whose binding into `Params` fails, and
likewise for every request whose upgrade fails: `serveWs` starts no session and
no `handleConn` goroutine, and nothing is put on the registry channels; when
the binding fails the upgrade is not attempted either. -/
theorem serveWs_rejected_request_starts_nothing (c : Request) (now : Int)
    (incoming : List Incoming)
    (h : (∃ err, c.bind = Except.error err) ∨ (∃ err, c.upgrade = Except.error err)) :
    (serveWs c).2 = none ∧
    serve c now incoming = (serveWs c).1 ∧
    registryEvents (serve c now incoming) = [] ∧
    (∀ uid, Action.goHandleConn uid ∉ serve c now incoming) ∧
    ((∃ err, c.bind = Except.error err) → Action.upgrade ∉ serve c now incoming) := by
  have hnone : (serveWs c).2 = none := by
    unfold serveWs
    rcases h with ⟨err, hb⟩ | ⟨err, hu⟩
    · rw [hb]
    · cases hb : c.bind with
      | error e => rfl
      | ok params =>
        rw [hu]
        cases err <;> rfl
  have hserve : serve c now incoming = (serveWs c).1 := by
    simp [serve, hnone]
  refine ⟨hnone, hserve, ?_, ?_, ?_⟩
  · rw [hserve]
    unfold serveWs
    cases hb : c.bind with
    | error e => rfl
    | ok params =>
      cases hu : c.upgrade with
      | error e => cases e <;> rfl
      | ok conn => simp [serveWs, hb, hu] at hnone
  · intro uid
    rw [hserve]
    unfold serveWs
    cases hb : c.bind with
    | error e => simp
    | ok params =>
      cases hu : c.upgrade with
      | error e => cases e <;> simp
      | ok conn => simp [serveWs, hb, hu] at hnone
  · rintro ⟨err, hb⟩
    rw [hserve]
    unfold serveWs
    rw [hb]
    simp

/-- C5, at a request without `ts`: binding fails although the upgrade would succeed. -/
theorem serveWs_rejected_request_starts_nothing_witness :
    (serveWs ⟨Except.error "ts is required", Except.ok 1⟩).2 = none ∧
    registryEvents (serve ⟨Except.error "ts is required", Except.ok 1⟩ 0
      [Incoming.fail (GoError.other "eof")]) = [] :=
  ⟨(serveWs_rejected_request_starts_nothing ⟨Except.error "ts is required", Except.ok 1⟩ 0
      [Incoming.fail (GoError.other "eof")] (Or.inl ⟨"ts is required", rfl⟩)).1,
    (serveWs_rejected_request_starts_nothing ⟨Except.error "ts is required", Except.ok 1⟩ 0
      [Incoming.fail (GoError.other "eof")] (Or.inl ⟨"ts is required", rfl⟩)).2.2.1⟩

/-- C8, as stated, fails at a peer close with code 1000 (normal closure): the
read error is logged as an unexpected close although the claim classifies
normal closure as expected. -/
theorem handleConn_logs_normal_closure :
    endingError ⟨"7", 1⟩ [Incoming.fail (GoError.closeError CloseNormalClosure "")] =
      some (GoError.closeError CloseNormalClosure "") ∧
    ¬ (loggedAnomaly
        (handleConn ⟨"7", 1⟩ 0
          [Incoming.fail (GoError.closeError CloseNormalClosure "")]).1 = true ↔
      ∃ code text, GoError.closeError CloseNormalClosure "" = GoError.closeError code text ∧
        code ≠ CloseNormalClosure ∧ code ≠ CloseGoingAway ∧ code ≠ CloseAbnormalClosure) := by
  refine ⟨rfl, ?_⟩
  intro h
  have hlog : loggedAnomaly
      (handleConn ⟨"7", 1⟩ 0
        [Incoming.fail (GoError.closeError CloseNormalClosure "")]).1 = true := by
    decide
  obtain ⟨code, text, heq, hne, _⟩ := h.mp hlog
  simp only [GoError.closeError.injEq] at heq
  exact hne heq.1.symm

/-- C8, amended. For every read error `err` that ends the read loop of
`handleConn`: it is logged as an unexpected close iff it is a peer close whose
code is neither going-away nor abnormal-closure; logged or not, `handleConn`
returns and its last two effects are the same, closing the connection and
sending the leave. -/
theorem handleConn_logs_iff_close_code_unexpected (u : User) (now : Int)
    (incoming : List Incoming) (err : GoError) (h : endingError u incoming = some err) :
    (loggedAnomaly (handleConn u now incoming).1 = true ↔
      ∃ code text, err = GoError.closeError code text ∧
        code ≠ CloseGoingAway ∧ code ≠ CloseAbnormalClosure) ∧
    (handleConn u now incoming).2 = true ∧
    ∃ body, (handleConn u now incoming).1 =
      body ++ [Action.connClose, Action.sendLeaving u.uid] ∧ loggedAnomaly body =
        loggedAnomaly (handleConn u now incoming).1 := by
  have hexit : (readLoop u incoming).2 = true :=
    (readLoop_exits_iff_endingError u incoming).mpr ⟨err, h⟩
  have htrace : (handleConn u now incoming).1 =
      handleConnSetup u now ++ (readLoop u incoming).1 ++ handleConnDeferred u := by
    simp [handleConn, hexit]
  have hsetup : loggedAnomaly (handleConnSetup u now) = false := rfl
  have hdefer : loggedAnomaly (handleConnDeferred u) = false := rfl
  have hlog : loggedAnomaly (handleConn u now incoming).1 =
      IsUnexpectedCloseError err expectedCloseCodes := by
    rw [htrace, loggedAnomaly_append, loggedAnomaly_append, hsetup, hdefer,
      loggedAnomaly_readLoop u incoming err h]
    simp
  refine ⟨?_, by simp [handleConn, hexit],
    handleConnSetup u now ++ (readLoop u incoming).1, ?_, ?_⟩
  · rw [hlog]
    exact isUnexpectedCloseError_iff err
  · rw [htrace]; rfl
  · rw [hlog, loggedAnomaly_append, hsetup, loggedAnomaly_readLoop u incoming err h]
    simp

/-- C8 amended, at a session whose peer closes with code 1000 after one message. -/
theorem handleConn_logs_iff_close_code_unexpected_witness :
    loggedAnomaly (handleConn ⟨"7", 1⟩ 0
      [Incoming.message, Incoming.fail (GoError.closeError 1000 "bye")]).1 = true ↔
    ∃ code text, GoError.closeError 1000 "bye" = GoError.closeError code text ∧
      code ≠ CloseGoingAway ∧ code ≠ CloseAbnormalClosure :=
  (handleConn_logs_iff_close_code_unexpected ⟨"7", 1⟩ 0
    [Incoming.message, Incoming.fail (GoError.closeError 1000 "bye")]
    (GoError.closeError 1000 "bye") rfl).1

/-! ## Lemmas on sessions sharing the registry -/

theorem UsersMap.mem_keys_iff (m : UsersMap) (k : String) :
    k ∈ m.keys ↔ m.hasKey k = true := by
  rw [UsersMap.hasKey_iff]
  simp [UsersMap.keys]

theorem hub_cons (h : Hub) (e : HubEvent) (es : List HubEvent) :
    hub h (e :: es) = hub (hubStep h e) es := rfl

theorem hub_tracks_open_sessions (events : List SessionEvent) :
    ∀ (h : Hub) (opened : List (Nat × String)),
      (∀ uid, h.users.hasKey uid = true ↔ ∃ sid, (sid, uid) ∈ opened) →
      (∀ s1 s2 uid, (s1, uid) ∈ opened → (s2, uid) ∈ opened → s1 = s2) →
      noOverlapFrom opened events = true →
      ∀ uid, (hub h (events.map (fun e => e.ev))).users.hasKey uid = true ↔
        ∃ sid, (sid, uid) ∈ events.foldl openAfter opened := by
  induction events with
  | nil =>
    intro h opened hinv _ _ uid
    simpa [hub] using hinv uid
  | cons e rest ih =>
    intro h opened hinv huniq hok uid
    simp only [noOverlapFrom, Bool.and_eq_true] at hok
    obtain ⟨hadm, hrest⟩ := hok
    simp only [List.map_cons, hub_cons, List.foldl_cons]
    refine ih (hubStep h e.ev) (openAfter opened e) ?_ ?_ hrest uid
    · intro k
      obtain ⟨sid, ev⟩ := e
      cases ev with
      | entering u =>
        simp only [hubStep, openAfter, UsersMap.hasKey_store, Bool.or_eq_true, beq_iff_eq,
          List.mem_cons, Prod.mk.injEq, hinv k]
        constructor
        · rintro (hk | ⟨s, hs⟩)
          · exact ⟨sid, Or.inl ⟨rfl, hk⟩⟩
          · exact ⟨s, Or.inr hs⟩
        · rintro ⟨s, ⟨_, hk⟩ | hs⟩
          · exact Or.inl hk
          · exact Or.inr ⟨s, hs⟩
      | leaving u =>
        simp only [admissible, List.contains_iff_exists_mem_beq, beq_iff_eq] at hadm
        simp only [hubStep, openAfter, UsersMap.hasKey_delete, Bool.and_eq_true, bne_iff_ne,
          ne_eq, List.mem_filter, Prod.mk.injEq, not_and, hinv k]
        constructor
        · rintro ⟨hk, s, hs⟩
          exact ⟨s, hs, fun _ => hk⟩
        · rintro ⟨s, hs, hne⟩
          refine ⟨?_, s, hs⟩
          intro hk
          subst hk
          obtain ⟨q, hq, hqe⟩ := hadm
          subst hqe
          exact hne (huniq s sid k hs hq) rfl
    · intro s1 s2 k h1 h2
      obtain ⟨sid, ev⟩ := e
      cases ev with
      | entering u =>
        simp only [admissible, List.all_eq_true, Bool.and_eq_true, bne_iff_ne, ne_eq] at hadm
        simp only [openAfter, List.mem_cons, Prod.mk.injEq] at h1 h2
        rcases h1 with ⟨rfl, rfl⟩ | h1
        · rcases h2 with ⟨rfl, _⟩ | h2
          · rfl
          · exact absurd rfl (hadm _ h2).2
        · rcases h2 with ⟨_, rfl⟩ | h2
          · exact absurd rfl (hadm _ h1).2
          · exact huniq s1 s2 k h1 h2
      | leaving u =>
        simp only [openAfter, List.mem_filter] at h1 h2
        exact huniq s1 s2 k h1.1 h2.1

/-! ## Claim on sessions sharing the registry -/

/-- C10. Neither `serveWs` nor `hub` enforces that open sessions have distinct
uids: two requests carrying the same uid are both admitted, and after the
events join `u`, join `u`, leave `u` of two such sessions, `users` does not
contain `u` although the second session is still open. Conversely, whenever no
two overlapping sessions share a uid, the keys of `users` are exactly the uids
of the sessions that have joined and not yet left. -/
theorem registry_does_not_enforce_unique_uid :
    (∀ (u : String) (ts1 ts2 : Int),
      (serveWs ⟨Except.ok ⟨u, ts1⟩, Except.ok 1⟩).2 = some ⟨u, 1⟩ ∧
      (serveWs ⟨Except.ok ⟨u, ts2⟩, Except.ok 2⟩).2 = some ⟨u, 2⟩) ∧
    (∀ u : String,
      (hub Hub.init (List.map (fun e => e.ev)
        [(⟨1, HubEvent.entering u⟩ : SessionEvent), ⟨2, HubEvent.entering u⟩,
          ⟨1, HubEvent.leaving u⟩])).users.hasKey u = false ∧
      openSessions [⟨1, HubEvent.entering u⟩, ⟨2, HubEvent.entering u⟩,
        ⟨1, HubEvent.leaving u⟩] = [(2, u)]) ∧
    (∀ events : List SessionEvent, noOverlap events = true →
      ∀ uid, uid ∈ (hub Hub.init (events.map (fun e => e.ev))).users.keys ↔
        uid ∈ (openSessions events).map Prod.snd) := by
  refine ⟨fun u ts1 ts2 => ⟨rfl, rfl⟩, ?_, ?_⟩
  · intro u
    constructor
    · simp [hub, hubStep, UsersMap.hasKey_delete]
    · have h21 : (((2 : Nat), u) != ((1 : Nat), u)) = true := by simp
      have h11 : (((1 : Nat), u) != ((1 : Nat), u)) = false := by simp
      simp [openSessions, openAfter, List.filter, h21, h11]
  · intro events hok uid
    rw [UsersMap.mem_keys_iff]
    have h := hub_tracks_open_sessions events Hub.init []
      (by intro k; simp [Hub.init, UsersMap.empty, UsersMap.hasKey])
      (by intro s1 s2 k h1; simp at h1) hok uid
    rw [h]
    simp [openSessions]

/-- C10, at two sessions with distinct uids of which the first has left. -/
theorem registry_does_not_enforce_unique_uid_witness :
    "b" ∈ (hub Hub.init (List.map (fun e => e.ev)
        [(⟨1, HubEvent.entering "a"⟩ : SessionEvent), ⟨2, HubEvent.entering "b"⟩,
          ⟨1, HubEvent.leaving "a"⟩])).users.keys ↔
      "b" ∈ (openSessions [⟨1, HubEvent.entering "a"⟩, ⟨2, HubEvent.entering "b"⟩,
        ⟨1, HubEvent.leaving "a"⟩]).map Prod.snd :=
  registry_does_not_enforce_unique_uid.2.2
    [⟨1, HubEvent.entering "a"⟩, ⟨2, HubEvent.entering "b"⟩, ⟨1, HubEvent.leaving "a"⟩]
    (by decide) "b"

/-! ## Lemmas on the client loop -/

theorem cons_eq_append_cons_of_ne {α : Type} {a x : α} {l pre post : List α}
    (h : a :: l = pre ++ x :: post) (hne : a ≠ x) :
    ∃ pre2, pre = a :: pre2 ∧ l = pre2 ++ x :: post := by
  cases pre with
  | nil =>
    simp only [List.nil_append, List.cons.injEq] at h
    exact absurd h.1 hne
  | cons b pre2 =>
    simp only [List.cons_append, List.cons.injEq] at h
    exact ⟨pre2, by rw [h.1], h.2⟩

theorem nil_ne_append_cons {α : Type} {x : α} {pre post : List α} :
    ([] : List α) ≠ pre ++ x :: post := by
  cases pre <;> simp

theorem operations_cons_log (a : ClientAction) (l : List ClientAction) (h : a.isLog = true) :
    operations (a :: l) = operations l := by
  simp [operations, h]

theorem operations_cons_op (a : ClientAction) (l : List ClientAction) (h : a.isLog = false) :
    operations (a :: l) = a :: operations l := by
  simp [operations, h]

theorem operations_append (a b : List ClientAction) :
    operations (a ++ b) = operations a ++ operations b := by
  simp [operations]

theorem newUserLoop_repost_follows (selected : List Selected) :
    ∀ (pre post : List ClientAction) (next : Signal),
      operations (newUserLoop selected).1 = pre ++ ClientAction.recvInterrupt next :: post →
      (post = [] ∧ (newUserLoop selected).2 = Status.sending) ∨
      ∃ post2, post = ClientAction.sendInterrupt next ::
        ClientAction.writeClose CloseNormalClosure :: post2 := by
  induction selected with
  | nil =>
    intro pre post next h
    exact absurd h nil_ne_append_cons
  | cons x rest ih =>
    intro pre post next h
    cases x with
    | tick t writeErr =>
      cases writeErr with
      | some err =>
        have h1 : ClientAction.writePing t :: [] =
            pre ++ ClientAction.recvInterrupt next :: post := h
        obtain ⟨pre2, _, h2⟩ := cons_eq_append_cons_of_ne h1 (by simp)
        exact absurd h2 nil_ne_append_cons
      | none =>
        have h1 : ClientAction.writePing t :: operations (newUserLoop rest).1 =
            pre ++ ClientAction.recvInterrupt next :: post := h
        obtain ⟨pre2, _, h2⟩ := cons_eq_append_cons_of_ne h1 (by simp)
        exact ih pre2 post next h2
    | interrupt sig writeErr =>
      cases writeErr with
      | some err =>
        have h1 : ClientAction.recvInterrupt sig :: ClientAction.sendInterrupt sig ::
            ClientAction.writeClose CloseNormalClosure :: [] =
            pre ++ ClientAction.recvInterrupt next :: post := h
        cases pre with
        | nil =>
          simp only [List.nil_append, List.cons.injEq, ClientAction.recvInterrupt.injEq] at h1
          exact Or.inr ⟨[], by rw [← h1.2, h1.1]⟩
        | cons b pre2 =>
          simp only [List.cons_append, List.cons.injEq] at h1
          obtain ⟨pre3, _, h3⟩ := cons_eq_append_cons_of_ne h1.2 (by simp)
          obtain ⟨pre4, _, h4⟩ := cons_eq_append_cons_of_ne h3 (by simp)
          exact absurd h4 nil_ne_append_cons
      | none =>
        have h1 : ClientAction.recvInterrupt sig :: ClientAction.sendInterrupt sig ::
            ClientAction.writeClose CloseNormalClosure :: operations (newUserLoop rest).1 =
            pre ++ ClientAction.recvInterrupt next :: post := h
        cases pre with
        | nil =>
          simp only [List.nil_append, List.cons.injEq, ClientAction.recvInterrupt.injEq] at h1
          exact Or.inr ⟨operations (newUserLoop rest).1, by rw [← h1.2, h1.1]⟩
        | cons b pre2 =>
          simp only [List.cons_append, List.cons.injEq] at h1
          obtain ⟨pre3, _, h3⟩ := cons_eq_append_cons_of_ne h1.2 (by simp)
          obtain ⟨pre4, _, h4⟩ := cons_eq_append_cons_of_ne h3 (by simp)
          exact ih pre4 post next h4
    | interruptBlocked sig =>
      have h1 : ClientAction.recvInterrupt sig :: [] =
          pre ++ ClientAction.recvInterrupt next :: post := h
      cases pre with
      | nil =>
        simp only [List.nil_append, List.cons.injEq] at h1
        exact Or.inl ⟨h1.2.symm, rfl⟩
      | cons b pre2 =>
        simp only [List.cons_append, List.cons.injEq] at h1
        exact absurd h1.2 nil_ne_append_cons

theorem repost_follows_append_right (l tail : List ClientAction)
    (hl : ∀ (pre post : List ClientAction) (next : Signal),
      l = pre ++ ClientAction.recvInterrupt next :: post →
      ∃ post2, post = ClientAction.sendInterrupt next ::
        ClientAction.writeClose CloseNormalClosure :: post2)
    (htail : ∀ next, ClientAction.recvInterrupt next ∉ tail) :
    ∀ (pre post : List ClientAction) (next : Signal),
      l ++ tail = pre ++ ClientAction.recvInterrupt next :: post →
      ∃ post2, post = ClientAction.sendInterrupt next ::
        ClientAction.writeClose CloseNormalClosure :: post2 := by
  intro pre post next h
  rcases List.append_eq_append_iff.mp h with ⟨a, hpre, htl⟩ | ⟨c, hl2, hc⟩
  · exact absurd (by rw [htl]; simp) (htail next)
  · cases c with
    | nil =>
      simp only [List.nil_append] at hc
      exact absurd (by rw [← hc]; simp) (htail next)
    | cons d c2 =>
      simp only [List.cons_append, List.cons.injEq] at hc
      obtain ⟨hd, hpost⟩ := hc
      subst hd
      obtain ⟨post2, hp2⟩ := hl pre c2 next hl2
      exact ⟨post2 ++ tail, by rw [hpost, hp2]; simp⟩

theorem newUserLoop_reposts_what_it_receives (selected : List Selected) :
    ((newUserLoop selected).2 = Status.sending →
      ∃ last, receivedSignals (newUserLoop selected).1 =
        repostedSignals (newUserLoop selected).1 ++ [last]) ∧
    ((newUserLoop selected).2 ≠ Status.sending →
      repostedSignals (newUserLoop selected).1 = receivedSignals (newUserLoop selected).1) := by
  induction selected with
  | nil => exact ⟨fun h => absurd h (by decide), fun _ => rfl⟩
  | cons x rest ih =>
    cases x with
    | tick t writeErr =>
      cases writeErr with
      | some err => exact ⟨fun h => by simp [newUserLoop] at h, fun _ => rfl⟩
      | none => simpa [newUserLoop, repostedSignals, receivedSignals] using ih
    | interrupt sig writeErr =>
      cases writeErr with
      | some err => exact ⟨fun h => by simp [newUserLoop] at h, fun _ => rfl⟩
      | none =>
        obtain ⟨ih1, ih2⟩ := ih
        constructor
        · intro hst
          obtain ⟨last, hlast⟩ := ih1 hst
          refine ⟨last, ?_⟩
          simp only [repostedSignals, receivedSignals] at hlast
          simp [newUserLoop, repostedSignals, receivedSignals, hlast]
        · intro hst
          have hsame := ih2 hst
          simp only [repostedSignals, receivedSignals] at hsame
          simp [newUserLoop, repostedSignals, receivedSignals, hsame]
    | interruptBlocked sig =>
      exact ⟨fun _ => ⟨sig, rfl⟩, fun h => absurd rfl h⟩

theorem receivedSignals_newUser_trace (loop tail : List ClientAction)
    (htail : receivedSignals tail = []) :
    receivedSignals ([ClientAction.createToken, ClientAction.dial, ClientAction.newTicker] ++
      loop ++ tail) = receivedSignals loop := by
  simp only [receivedSignals] at htail
  simp [receivedSignals, htail]

theorem repostedSignals_newUser_trace (loop tail : List ClientAction)
    (htail : repostedSignals tail = []) :
    repostedSignals ([ClientAction.createToken, ClientAction.dial, ClientAction.newTicker] ++
      loop ++ tail) = repostedSignals loop := by
  simp only [repostedSignals] at htail
  simp [repostedSignals, htail]

theorem relay_blocked_repost_step (a b : Signal) (received : List Signal) (s : Step) :
    (⟨[a], [⟨Pc.atRepost b, received⟩]⟩ : Relay).step s = none ∨
      (⟨[a], [⟨Pc.atRepost b, received⟩]⟩ : Relay).step s =
        some ⟨[a], [⟨Pc.atRepost b, received⟩]⟩ := by
  cases s with
  | notify sig => right; simp [Relay.step, interruptCap]
  | receive i => left; cases i <;> simp [Relay.step]
  | tick i writeErr => left; cases i <;> simp [Relay.step]
  | repost i => left; cases i <;> simp [Relay.step, interruptCap]
  | writeClose i writeErr => left; cases i <;> simp [Relay.step]

theorem relay_blocked_repost_run (a b : Signal) (received : List Signal)
    (schedule : List Step) :
    ∀ r, (⟨[a], [⟨Pc.atRepost b, received⟩]⟩ : Relay).run schedule = some r →
      r = ⟨[a], [⟨Pc.atRepost b, received⟩]⟩ := by
  induction schedule with
  | nil =>
    intro r h
    simp only [Relay.run, Option.some.injEq] at h
    exact h.symm
  | cons s rest ih =>
    intro r h
    simp only [Relay.run] at h
    rcases relay_blocked_repost_step a b received s with hs | hs
    · rw [hs] at h
      simp at h
    · rw [hs] at h
      exact ih r h

/-! ## Claims on the client loop and the shutdown relay -/

/-- C9, as stated, fails when a further signal is posted between the receive
and the re-post: with one goroutine, after SIGINT is received and SIGTERM is
posted, the one slot of `interrupt` is full, the send `interrupt <- next` is not
enabled and no schedule changes that; the goroutine stays blocked in the send,
its receipt followed by no re-post and by no close frame. -/
theorem newUser_receipt_without_repost :
    (Relay.init 1).run [Step.notify 2, Step.receive 0, Step.notify 15] =
      some ⟨[15], [⟨Pc.atRepost 2, [2]⟩]⟩ ∧
    (⟨[15], [⟨Pc.atRepost 2, [2]⟩]⟩ : Relay).step (Step.repost 0) = none ∧
    (∀ (schedule : List Step) (r : Relay),
      (⟨[15], [⟨Pc.atRepost 2, [2]⟩]⟩ : Relay).run schedule = some r →
        r = ⟨[15], [⟨Pc.atRepost 2, [2]⟩]⟩) ∧
    newUser "1" none none [Selected.interruptBlocked 2] =
      ([ClientAction.createToken, ClientAction.dial, ClientAction.newTicker,
        ClientAction.recvInterrupt 2, ClientAction.logInterrupt], Status.sending) ∧
    operations (newUser "1" none none [Selected.interruptBlocked 2]).1 =
      [ClientAction.createToken, ClientAction.dial, ClientAction.newTicker] ++
        ClientAction.recvInterrupt 2 :: [] ∧
    (¬ ∃ post2, ([] : List ClientAction) = ClientAction.sendInterrupt 2 ::
      ClientAction.writeClose CloseNormalClosure :: post2) ∧
    repostedSignals (newUser "1" none none [Selected.interruptBlocked 2]).1 ≠
      receivedSignals (newUser "1" none none [Selected.interruptBlocked 2]).1 := by
  refine ⟨by decide, by decide, relay_blocked_repost_run 15 2 [2], by decide, by decide, ?_,
    by decide⟩
  rintro ⟨post2, h⟩
  simp at h

/-- C9, amended. For every value `next` that a `newUser` goroutine receives
from `interrupt`: log lines apart, its next operation, if it performs one, is
the send of that same value to `interrupt`, and the write of the close frame
comes right after that send; it performs none exactly when it is blocked in
that send. The values re-posted are, in order, the values received, but for
the last one while the goroutine is blocked in the send: each receipt is
followed by at most one re-post, and by exactly one once the send completes. -/
theorem newUser_repost_is_next_operation (uid : String) (tokenErr dialErr : Option GoError)
    (selected : List Selected) (pre post : List ClientAction) (next : Signal)
    (h : operations (newUser uid tokenErr dialErr selected).1 =
      pre ++ ClientAction.recvInterrupt next :: post) :
    ((post = [] ∧ (newUser uid tokenErr dialErr selected).2 = Status.sending) ∨
      ∃ post2, post = ClientAction.sendInterrupt next ::
        ClientAction.writeClose CloseNormalClosure :: post2) ∧
    ((newUser uid tokenErr dialErr selected).2 ≠ Status.sending →
      repostedSignals (newUser uid tokenErr dialErr selected).1 =
        receivedSignals (newUser uid tokenErr dialErr selected).1) ∧
    ((newUser uid tokenErr dialErr selected).2 = Status.sending →
      ∃ last, receivedSignals (newUser uid tokenErr dialErr selected).1 =
        repostedSignals (newUser uid tokenErr dialErr selected).1 ++ [last]) := by
  cases tokenErr with
  | some err =>
    have h1 : ClientAction.createToken :: ClientAction.fatalCreateToken err :: [] =
        pre ++ ClientAction.recvInterrupt next :: post := h
    obtain ⟨pre2, _, h2⟩ := cons_eq_append_cons_of_ne h1 (by simp)
    obtain ⟨pre3, _, h3⟩ := cons_eq_append_cons_of_ne h2 (by simp)
    exact absurd h3 nil_ne_append_cons
  | none =>
    cases dialErr with
    | some err =>
      have h1 : ClientAction.createToken :: ClientAction.dial ::
          ClientAction.fatalDial err :: [] =
          pre ++ ClientAction.recvInterrupt next :: post := h
      obtain ⟨pre2, _, h2⟩ := cons_eq_append_cons_of_ne h1 (by simp)
      obtain ⟨pre3, _, h3⟩ := cons_eq_append_cons_of_ne h2 (by simp)
      obtain ⟨pre4, _, h4⟩ := cons_eq_append_cons_of_ne h3 (by simp)
      exact absurd h4 nil_ne_append_cons
    | none =>
      have hloop := newUserLoop_repost_follows selected
      obtain ⟨hblocked, hsame⟩ := newUserLoop_reposts_what_it_receives selected
      by_cases hret : (newUserLoop selected).2 = Status.returned
      · have hns : (newUserLoop selected).2 ≠ Status.sending := by
          rw [hret]; decide
        have htrace : (newUser uid none none selected).1 =
            [ClientAction.createToken, ClientAction.dial, ClientAction.newTicker] ++
              (newUserLoop selected).1 ++ [ClientAction.tickerStop, ClientAction.connClose] := by
          simp [newUser, hret]
        have hstatus : (newUser uid none none selected).2 = Status.returned := by
          simp [newUser, hret]
        have hloop2 : ∀ (pre post : List ClientAction) (next : Signal),
            operations (newUserLoop selected).1 =
              pre ++ ClientAction.recvInterrupt next :: post →
            ∃ post2, post = ClientAction.sendInterrupt next ::
              ClientAction.writeClose CloseNormalClosure :: post2 := by
          intro pre post next hp
          rcases hloop pre post next hp with ⟨_, hst⟩ | hex
          · exact absurd hst hns
          · exact hex
        rw [htrace] at h
        rw [hstatus, htrace]
        refine ⟨Or.inr ?_, fun _ => ?_, fun hst => absurd hst (by decide)⟩
        · have h1 : ClientAction.createToken :: ClientAction.dial :: ClientAction.newTicker ::
              (operations (newUserLoop selected).1 ++
                [ClientAction.tickerStop, ClientAction.connClose]) =
              pre ++ ClientAction.recvInterrupt next :: post := by
            rw [← h, operations_append, operations_append]
            rfl
          obtain ⟨pre2, _, h2⟩ := cons_eq_append_cons_of_ne h1 (by simp)
          obtain ⟨pre3, _, h3⟩ := cons_eq_append_cons_of_ne h2 (by simp)
          obtain ⟨pre4, _, h4⟩ := cons_eq_append_cons_of_ne h3 (by simp)
          exact repost_follows_append_right _ _ hloop2 (by intro n; simp) pre4 post next h4
        · rw [receivedSignals_newUser_trace (newUserLoop selected).1
              [ClientAction.tickerStop, ClientAction.connClose] rfl,
            repostedSignals_newUser_trace (newUserLoop selected).1
              [ClientAction.tickerStop, ClientAction.connClose] rfl]
          exact hsame hns
      · have htrace : (newUser uid none none selected).1 =
            [ClientAction.createToken, ClientAction.dial, ClientAction.newTicker] ++
              (newUserLoop selected).1 ++ [] := by
          simp [newUser, hret]
        have hstatus : (newUser uid none none selected).2 = (newUserLoop selected).2 := by
          simp [newUser, hret]
        rw [htrace] at h
        rw [hstatus, htrace]
        refine ⟨?_, fun hst => ?_, fun hst => ?_⟩
        · have h1 : ClientAction.createToken :: ClientAction.dial :: ClientAction.newTicker ::
              operations (newUserLoop selected).1 =
              pre ++ ClientAction.recvInterrupt next :: post := by
            rw [← h, operations_append, operations_append]
            simp [operations, ClientAction.isLog]
          obtain ⟨pre2, _, h2⟩ := cons_eq_append_cons_of_ne h1 (by simp)
          obtain ⟨pre3, _, h3⟩ := cons_eq_append_cons_of_ne h2 (by simp)
          obtain ⟨pre4, _, h4⟩ := cons_eq_append_cons_of_ne h3 (by simp)
          exact hloop pre4 post next h4
        · rw [receivedSignals_newUser_trace (newUserLoop selected).1 [] rfl,
            repostedSignals_newUser_trace (newUserLoop selected).1 [] rfl]
          exact hsame hst
        · rw [receivedSignals_newUser_trace (newUserLoop selected).1 [] rfl,
            repostedSignals_newUser_trace (newUserLoop selected).1 [] rfl]
          exact hblocked hst

/-- C9 amended, at a goroutine that sends one ping and then receives SIGINT, the
re-post completing and the write of its close frame failing. -/
theorem newUser_repost_is_next_operation_witness :
    ([ClientAction.sendInterrupt 2, ClientAction.writeClose CloseNormalClosure,
        ClientAction.tickerStop, ClientAction.connClose] = [] ∧
      (newUser "1" none none
        [Selected.tick 5 none, Selected.interrupt 2 (some (GoError.other "broken pipe"))]).2 =
        Status.sending) ∨
    ∃ post2, [ClientAction.sendInterrupt 2, ClientAction.writeClose CloseNormalClosure,
        ClientAction.tickerStop, ClientAction.connClose] =
      ClientAction.sendInterrupt 2 :: ClientAction.writeClose CloseNormalClosure :: post2 :=
  (newUser_repost_is_next_operation "1" none none
    [Selected.tick 5 none, Selected.interrupt 2 (some (GoError.other "broken pipe"))]
    [ClientAction.createToken, ClientAction.dial, ClientAction.newTicker,
      ClientAction.writePing 5]
    [ClientAction.sendInterrupt 2, ClientAction.writeClose CloseNormalClosure,
      ClientAction.tickerStop, ClientAction.connClose]
    2 (by decide)).1

/-- C7 on the code: a goroutine whose close-frame write succeeds has not
returned, it is back in `select`; there it can receive the re-posted signal
again, or take a tick and attempt another ping, and it returns only when a
later write fails. -/
theorem newUser_loops_on_after_close_frame_sent :
    newUser "1" none none [Selected.interrupt 2 none] =
      ([ClientAction.createToken, ClientAction.dial, ClientAction.newTicker,
        ClientAction.recvInterrupt 2, ClientAction.logInterrupt, ClientAction.sendInterrupt 2,
        ClientAction.writeClose 1000], Status.selecting) ∧
    newUser "1" none none
        [Selected.interrupt 2 none, Selected.interrupt 2 (some GoError.errCloseSent)] =
      ([ClientAction.createToken, ClientAction.dial, ClientAction.newTicker,
        ClientAction.recvInterrupt 2, ClientAction.logInterrupt, ClientAction.sendInterrupt 2,
        ClientAction.writeClose 1000,
        ClientAction.recvInterrupt 2, ClientAction.logInterrupt, ClientAction.sendInterrupt 2,
        ClientAction.writeClose 1000, ClientAction.logWriteClose GoError.errCloseSent,
        ClientAction.tickerStop, ClientAction.connClose], Status.returned) ∧
    newUser "1" none none
        [Selected.interrupt 2 none, Selected.tick 9 (some GoError.errCloseSent)] =
      ([ClientAction.createToken, ClientAction.dial, ClientAction.newTicker,
        ClientAction.recvInterrupt 2, ClientAction.logInterrupt, ClientAction.sendInterrupt 2,
        ClientAction.writeClose 1000,
        ClientAction.writePing 9, ClientAction.logWriteErr GoError.errCloseSent,
        ClientAction.tickerStop, ClientAction.connClose], Status.returned) := by
  decide

/-- C6 on the code: with one goroutine waiting and one signal posted, the
goroutine receives the signal, re-posts it, writes its close frame without
error, is back in `select`, and receives the value it re-posted: two receipts
by the same goroutine. With two goroutines the first can receive twice before
the second receives once. -/
theorem relay_delivers_twice_to_one_session :
    ((Relay.init 1).run
      [Step.notify 2, Step.receive 0, Step.repost 0, Step.writeClose 0 none,
        Step.receive 0]).map (fun r => r.receipts 0) = some 2 ∧
    ((Relay.init 2).run
      [Step.notify 2, Step.receive 0, Step.repost 0, Step.writeClose 0 none,
        Step.receive 0, Step.repost 0, Step.writeClose 0 (some GoError.errCloseSent),
        Step.receive 1, Step.repost 1, Step.writeClose 1 none]).map
      (fun r => (r.receipts 0, r.receipts 1)) = some (2, 1) := by
  decide

end Heartbeating
